import Mathlib

/-!
Shallow embedding of the friend-relationship backend
(`src/index.js`, `src/routes/friend.js`, the `User` mongoose model).

A user record carries the fields of the `User` schema: `username`,
`friends` (array of user ids), `friendRequests` (the pending incoming
requests, array of user ids), `interests` (array of tag strings) and
`notifications` (array of `{message, timestamp}` documents; the
timestamp is filled in by the store with `Date.now` and plays no role
in any route, so a notification is embedded as its message).

The database is an association list from user id (the `_id` ObjectId,
embedded as a string) to the user record; `findUser` models
`User.findById` and `setUser` models `document.save()`.  Each route
handler becomes a function `DB → … → Except Err DB`: the `Err` value
is the 4xx error branch taken by the handler, and on success the
returned `DB` reflects every `save()` the handler performs.  Handlers
return an error before any mutation, so a failing call leaves the
database untouched (`applyOp`).  An array's `includes` is embedded as
list membership and `filter(id => id.toString() !== x)` as
`List.filter (· != x)`.
-/

structure Notif where
  message : String
deriving DecidableEq, Repr

structure User where
  username : String
  friends : List String
  friendRequests : List String
  interests : List String
  notifications : List Notif
deriving DecidableEq, Repr

abbrev DB := List (String × User)

/-- `User.findById`: first record whose id matches. -/
def findUser : DB → String → Option User
  | [], _ => none
  | (k, v) :: rest, uid => if k = uid then some v else findUser rest uid

/-- `document.save()`: replace the record stored under `uid`. -/
def setUser : DB → String → User → DB
  | [], _, _ => []
  | (k, v) :: rest, uid, u =>
    (if k = uid then (uid, u) else (k, v)) :: setUser rest uid u

/-- The 4xx error branches of the route handlers in `src/routes/friend.js`. -/
inductive Err where
  | invalidArgument
  | notFound
  | alreadyFriends
  | duplicateRequest
  | noSuchRequest
deriving DecidableEq, Repr

/-- `POST /request` (`src/routes/friend.js:21`): `userId` is the requester,
`friendId` the target.  Mirrors the handler's checks in order: self-request,
existence, already-friends (either direction), duplicate pending request;
on success pushes the requester onto the target's `friendRequests` and a
notification onto the target, then saves only the target. -/
def sendRequest (db : DB) (userId friendId : String) : Except Err DB :=
  if userId = friendId then .error .invalidArgument
  else
    match findUser db userId, findUser db friendId with
    | some user, some friend =>
      if friendId ∈ user.friends ∨ userId ∈ friend.friends then
        .error .alreadyFriends
      else if userId ∈ friend.friendRequests then
        .error .duplicateRequest
      else
        .ok (setUser db friendId
          { friend with
            friendRequests := friend.friendRequests ++ [userId],
            notifications := friend.notifications ++
              [⟨user.username ++ " has sent you a friend request."⟩] })
    | _, _ => .error .notFound

/-- `POST /accept` (`src/routes/friend.js:70`): `userId` is the accepter,
`friendId` the original requester.  On success each is pushed onto the
other's `friends`, the request is filtered out of the accepter's
`friendRequests`, and a notification is pushed onto the requester. -/
def acceptRequest (db : DB) (userId friendId : String) : Except Err DB :=
  match findUser db userId, findUser db friendId with
  | some user, some friend =>
    if friendId ∈ user.friendRequests then
      .ok (setUser
            (setUser db userId
              { user with
                friends := user.friends ++ [friendId],
                friendRequests := user.friendRequests.filter (fun id => id != friendId) })
            friendId
            { friend with
              friends := friend.friends ++ [userId],
              notifications := friend.notifications ++
                [⟨user.username ++ " has accepted your friend request."⟩] })
    else .error .noSuchRequest
  | _, _ => .error .notFound

/-- `POST /reject` (`src/routes/friend.js:113`): `userId` is the rejecter,
`friendId` the original requester. -/
def rejectRequest (db : DB) (userId friendId : String) : Except Err DB :=
  match findUser db userId, findUser db friendId with
  | some user, some friend =>
    if friendId ∈ user.friendRequests then
      .ok (setUser
            (setUser db userId
              { user with
                friendRequests := user.friendRequests.filter (fun id => id != friendId) })
            friendId
            { friend with
              notifications := friend.notifications ++
                [⟨user.username ++ " has rejected your friend request."⟩] })
    else .error .noSuchRequest
  | _, _ => .error .notFound

/-- `POST /unfriend` (`src/routes/friend.js:318`): proceeds unconditionally
once both users exist — there is no not-friends check; the filters are
no-ops when the pair was not friends, and the notification is pushed
regardless. -/
def unfriend (db : DB) (userId friendId : String) : Except Err DB :=
  match findUser db userId, findUser db friendId with
  | some user, some friend =>
    .ok (setUser
          (setUser db userId
            { user with friends := user.friends.filter (fun id => id != friendId) })
          friendId
          { friend with
            friends := friend.friends.filter (fun id => id != userId),
            notifications := friend.notifications ++
              [⟨user.username ++ " has unfriended you."⟩] })
  | _, _ => .error .notFound

/-- One workflow invocation: which route, the caller (`userId`) and the
other user (`friendId`), as sent in the request body. -/
inductive Op where
  | send (userId friendId : String)
  | accept (userId friendId : String)
  | reject (userId friendId : String)
  | unfriend (userId friendId : String)
deriving DecidableEq, Repr

def stepOp (db : DB) : Op → Except Err DB
  | .send u f => sendRequest db u f
  | .accept u f => acceptRequest db u f
  | .reject u f => rejectRequest db u f
  | .unfriend u f => unfriend db u f

def resultDB (db : DB) : Except Err DB → DB
  | .ok db2 => db2
  | .error _ => db

/-- Effect of an invocation on the store: a handler that answers with an
error has not saved anything, so the database is unchanged. -/
def applyOp (db : DB) (op : Op) : DB :=
  resultDB db (stepOp db op)

def runOps (db : DB) (ops : List Op) : DB :=
  ops.foldl applyOp db

/-! ### Symmetry of the friends relation (claim C1) -/

/-- The spec's symmetry invariant: any two distinct stored users agree on
whether they are friends. -/
def SymmFriends (db : DB) : Prop :=
  ∀ a b ua ub, a ≠ b → findUser db a = some ua → findUser db b = some ub →
    (b ∈ ua.friends ↔ a ∈ ub.friends)

def exDb : DB :=
  [("a", ⟨"alice", [], [], [], []⟩), ("b", ⟨"bob", [], [], [], []⟩)]

def exSendDb : DB :=
  [("a", ⟨"alice", [], [], [], []⟩),
   ("b", ⟨"bob", [], ["a"], [], [⟨"alice has sent you a friend request."⟩]⟩)]

/-! ### The recommendation route (`GET /:userId/recommendations`)

`src/routes/friend.js:172-253`.  The handler builds a mutable object
`recommendations` keyed by candidate id; a JS object with string keys
enumerates in insertion order, so it is embedded as an association list
to which new candidates are appended.  `populate` on an array of id
references drops ids that do not resolve to a document, which
`existingIds` models.  `Array.prototype.sort` is stable (ES2019), and a
stable sort w.r.t. a fixed total preorder is a unique function of its
input, so it is embedded as a structural stable insertion sort
(`sortRecs`) over the source's comparator
`(a, b) => b.commonInterests - a.commonInterests || b.mutualFriends - a.mutualFriends`. -/

/-- One entry of the `recommendations` accumulator
(`{ username, commonInterests, mutualFriends }`). -/
structure RecEntry where
  username : String
  commonInterests : Nat
  mutualFriends : Nat
deriving DecidableEq, Repr

/-- `populate` keeps only the references that resolve to a stored user. -/
def existingIds (db : DB) (l : List String) : List String :=
  l.filter (fun i => (findUser db i).isSome)

/-- The step-1 query: every user other than `userId` whose `interests`
meet `user.interests` (`$in`), in collection order. -/
def commonInterestUsers (db : DB) (userId : String) (user : User) : List (String × User) :=
  db.filter (fun p =>
    decide (p.1 ≠ userId) && p.2.interests.any (fun i => decide (i ∈ user.interests)))

/-- `recommendations[id]` lookup. -/
def recFind (recs : List (String × RecEntry)) (c : String) : Option RecEntry :=
  (recs.find? (fun p => decide (p.1 = c))).map (fun p => p.2)

/-- Body of the step-1 loop: skip direct friends and ids already present;
otherwise insert the candidate with its common-interest count and a zero
mutual-friend count. -/
def interestStep (user : User) (friendIds : List String)
    (recs : List (String × RecEntry)) (cand : String × User) :
    List (String × RecEntry) :=
  if cand.1 ∈ friendIds ∨ (recFind recs cand.1).isSome then recs
  else recs ++ [(cand.1,
    { username := cand.2.username,
      commonInterests :=
        (user.interests.filter (fun i => decide (i ∈ cand.2.interests))).length,
      mutualFriends := 0 })]

def interestPass (db : DB) (userId : String) (user : User) (friendIds : List String) :
    List (String × RecEntry) :=
  (commonInterestUsers db userId user).foldl (interestStep user friendIds) []

/-- Step-2 update of one discovered mutual friend `gid`: initialize the
entry with `commonInterests = 0` if absent, then `mutualFriends += 1`. -/
def bumpMutual (recs : List (String × RecEntry)) (gid : String) (uname : String) :
    List (String × RecEntry) :=
  if (recFind recs gid).isSome then
    recs.map (fun p =>
      if p.1 = gid then (p.1, { p.2 with mutualFriends := p.2.mutualFriends + 1 }) else p)
  else recs ++ [(gid, ⟨uname, 0, 1⟩)]

/-- Body of the step-2 inner loop: skip the user themselves and their
direct friends, then bump the candidate. -/
def mutualStep (db : DB) (userId : String) (friendIds : List String)
    (recs : List (String × RecEntry)) (gid : String) : List (String × RecEntry) :=
  if gid = userId ∨ gid ∈ friendIds then recs
  else
    match findUser db gid with
    | some gu => bumpMutual recs gid gu.username
    | none => recs

/-- Step 2: for every friend, walk that friend's populated friends. -/
def mutualPass (db : DB) (userId : String) (friendIds : List String)
    (recs0 : List (String × RecEntry)) : List (String × RecEntry) :=
  friendIds.foldl (fun recs fid =>
    match findUser db fid with
    | some fu => (existingIds db fu.friends).foldl (mutualStep db userId friendIds) recs
    | none => recs) recs0

/-- The comparator: descending `commonInterests`, then descending
`mutualFriends`; `recLE a b` holds when `a` may stay before `b`. -/
def recLE (a b : String × RecEntry) : Bool :=
  decide (b.2.commonInterests < a.2.commonInterests) ||
  (decide (a.2.commonInterests = b.2.commonInterests) &&
    decide (b.2.mutualFriends ≤ a.2.mutualFriends))

/-- Insert `x` (an element originally to the left of everything in the
sorted tail) before the first element it may precede. -/
def orderedInsertLE (le : String × RecEntry → String × RecEntry → Bool)
    (x : String × RecEntry) : List (String × RecEntry) → List (String × RecEntry)
  | [] => [x]
  | y :: ys => if le x y then x :: y :: ys else y :: orderedInsertLE le x ys

/-- Stable insertion sort; the unique stable sort for a total preorder,
hence the embedding of JavaScript's stable `Array.prototype.sort`. -/
def sortRecs (le : String × RecEntry → String × RecEntry → Bool) :
    List (String × RecEntry) → List (String × RecEntry)
  | [] => []
  | x :: xs => orderedInsertLE le x (sortRecs le xs)

/-- The whole route: resolve the user, run the interest pass then the
mutual-friend pass over the populated friend ids, and sort. -/
def recommend (db : DB) (userId : String) : Except Err (List (String × RecEntry)) :=
  match findUser db userId with
  | none => .error .notFound
  | some user =>
    .ok (sortRecs recLE
      (mutualPass db userId (existingIds db user.friends)
        (interestPass db userId user (existingIds db user.friends))))

/-! ### Pending requests: consumption, duplicates, disjointness (C7, C6, C2) -/

def friendsOf (db : DB) (x : String) : List String :=
  ((findUser db x).map User.friends).getD []

def pendingOf (db : DB) (x : String) : List String :=
  ((findUser db x).map User.friendRequests).getD []

/-- State after `a` has sent a request to `b`. -/
def exPendingDb : DB := runOps exDb [Op.send "a" "b"]

/-- State reachable from `exDb` by mutual requests and one accept:
`a` and `b` are friends, yet `a` is still pending in `b`'s queue,
because `accept` only filters the accepter's own `friendRequests`. -/
def exMutualDb : DB := runOps exDb [Op.send "a" "b", Op.send "b" "a", Op.accept "a" "b"]

def exAcceptDb : DB := resultDB exPendingDb (acceptRequest exPendingDb "b" "a")

/-- Every key ever inserted into the accumulator is neither the user, nor
a (resolvable) direct friend, and resolves to a stored user. -/
def GoodKey (db : DB) (uid : String) (friendIds : List String) (c : String) : Prop :=
  c ≠ uid ∧ c ∉ friendIds ∧ (findUser db c).isSome

/-- A concrete graph: `u` is friends with `f`; `f` is also friends with
`c1`; `c2` shares both interests with `u`, `c3` shares one. -/
def exRecDb : DB :=
  [("u", ⟨"ursula", ["f"], [], ["x", "y"], []⟩),
   ("f", ⟨"fred", ["u", "c1"], [], [], []⟩),
   ("c1", ⟨"carol", ["f"], [], [], []⟩),
   ("c2", ⟨"dave", [], [], ["y", "x"], []⟩),
   ("c3", ⟨"erin", [], [], ["x", "z"], []⟩)]

def exRecOut : List (String × RecEntry) :=
  [("c2", ⟨"dave", 2, 0⟩), ("c3", ⟨"erin", 1, 0⟩), ("c1", ⟨"carol", 0, 1⟩)]

/-- Total number of mutual-friend paths from the walked friend lists to
candidate `c`: one per occurrence of `c` in each friend's populated
friend list. -/
def mutualCount (db : DB) (fids : List String) (c : String) : Nat :=
  (fids.map (fun fid =>
    match findUser db fid with
    | some fu => (existingIds db fu.friends).count c
    | none => 0)).sum

/-- `y` is listed among `x`'s friends (how the mutual pass reaches a
candidate: the spec's "friend of U who is also a friend of C"). -/
def isFriendOf (db : DB) (x y : String) : Bool :=
  match findUser db x with
  | some xu => decide (y ∈ xu.friends)
  | none => false

/-! ### Theorems -/

/-! ### Basic lemmas about the store -/

theorem findUser_setUser (db : DB) (i : String) (u : User) (j : String) :
    findUser (setUser db i u) j =
      if j = i then (findUser db j).map (fun _ => u) else findUser db j := by
  induction db with
  | nil => simp [findUser, setUser]
  | cons hd tl ih =>
    obtain ⟨k, v⟩ := hd
    show findUser ((if k = i then (i, u) else (k, v)) :: setUser tl i u) j = _
    by_cases hki : k = i
    · rw [if_pos hki]
      subst hki
      by_cases hkj : k = j
      · subst hkj
        simp [findUser]
      · have hjk : ¬j = k := fun h => hkj h.symm
        simp [findUser, hkj, hjk, ih]
    · rw [if_neg hki]
      by_cases hkj : k = j
      · subst hkj
        simp [findUser, hki]
      · have hjk : ¬j = k := fun h => hkj h.symm
        simp [findUser, hkj, hjk, ih]

theorem findUser_setUser_self (db : DB) (i : String) (u : User) :
    findUser (setUser db i u) i = (findUser db i).map (fun _ => u) := by
  rw [findUser_setUser, if_pos rfl]

theorem findUser_setUser_ne (db : DB) (i : String) (u : User) {j : String} (h : j ≠ i) :
    findUser (setUser db i u) j = findUser db j := by
  rw [findUser_setUser, if_neg h]

theorem findUser_set2 (db : DB) (u f : String) (uu ff : User) (x : String) :
    findUser (setUser (setUser db u uu) f ff) x =
      if x = f then (findUser db x).map (fun _ => ff)
      else if x = u then (findUser db x).map (fun _ => uu)
      else findUser db x := by
  rw [findUser_setUser, findUser_setUser]
  by_cases hxf : x = f
  · subst hxf
    by_cases hxu : x = u
    · subst hxu
      cases hdb : findUser db x <;> simp [hdb]
    · cases hdb : findUser db x <;> simp [hxu, hdb]
  · by_cases hxu : x = u
    · subst hxu
      simp [hxf]
    · simp [hxf, hxu]

theorem mem_filter_ne {l : List String} {x y : String} :
    x ∈ l.filter (fun id => id != y) ↔ x ∈ l ∧ x ≠ y := by
  simp [List.mem_filter]

theorem mem_append_single {l : List String} {x y : String} :
    x ∈ l ++ [y] ↔ x ∈ l ∨ x = y := by
  simp

theorem mem_of_findUser {db : DB} {a : String} {u : User} (h : findUser db a = some u) :
    (a, u) ∈ db := by
  induction db with
  | nil => simp [findUser] at h
  | cons hd tl ih =>
    obtain ⟨k, v⟩ := hd
    by_cases hk : k = a
    · subst hk
      simp [findUser] at h
      simp [h]
    · simp [findUser, hk] at h
      exact List.mem_cons_of_mem _ (ih h)

/-! ### Inversion lemmas: what a successful handler call did to the store -/

theorem sendRequest_ok {db : DB} {u f : String} {d : DB}
    (h : sendRequest db u f = .ok d) :
    u ≠ f ∧ ∃ user friend,
      findUser db u = some user ∧ findUser db f = some friend ∧
      ¬(f ∈ user.friends ∨ u ∈ friend.friends) ∧ u ∉ friend.friendRequests ∧
      d = setUser db f
        { friend with
          friendRequests := friend.friendRequests ++ [u],
          notifications := friend.notifications ++
            [⟨user.username ++ " has sent you a friend request."⟩] } := by
  unfold sendRequest at h
  split at h
  · cases h
  · rename_i huf
    split at h
    · rename_i user friend hu hf
      split at h
      · cases h
      · split at h
        · cases h
        · rename_i hfr hdup
          injection h with h
          exact ⟨huf, user, friend, hu, hf, hfr, hdup, h.symm⟩
    · cases h

theorem acceptRequest_ok {db : DB} {u f : String} {d : DB}
    (h : acceptRequest db u f = .ok d) :
    ∃ user friend,
      findUser db u = some user ∧ findUser db f = some friend ∧
      f ∈ user.friendRequests ∧
      d = setUser
            (setUser db u
              { user with
                friends := user.friends ++ [f],
                friendRequests := user.friendRequests.filter (fun id => id != f) })
            f
            { friend with
              friends := friend.friends ++ [u],
              notifications := friend.notifications ++
                [⟨user.username ++ " has accepted your friend request."⟩] } := by
  unfold acceptRequest at h
  split at h
  · rename_i user friend hu hf
    split at h
    · rename_i hreq
      injection h with h
      exact ⟨user, friend, hu, hf, hreq, h.symm⟩
    · cases h
  · cases h

theorem rejectRequest_ok {db : DB} {u f : String} {d : DB}
    (h : rejectRequest db u f = .ok d) :
    ∃ user friend,
      findUser db u = some user ∧ findUser db f = some friend ∧
      f ∈ user.friendRequests ∧
      d = setUser
            (setUser db u
              { user with
                friendRequests := user.friendRequests.filter (fun id => id != f) })
            f
            { friend with
              notifications := friend.notifications ++
                [⟨user.username ++ " has rejected your friend request."⟩] } := by
  unfold rejectRequest at h
  split at h
  · rename_i user friend hu hf
    split at h
    · rename_i hreq
      injection h with h
      exact ⟨user, friend, hu, hf, hreq, h.symm⟩
    · cases h
  · cases h

theorem unfriend_ok {db : DB} {u f : String} {d : DB}
    (h : unfriend db u f = .ok d) :
    ∃ user friend,
      findUser db u = some user ∧ findUser db f = some friend ∧
      d = setUser
            (setUser db u
              { user with friends := user.friends.filter (fun id => id != f) })
            f
            { friend with
              friends := friend.friends.filter (fun id => id != u),
              notifications := friend.notifications ++
                [⟨user.username ++ " has unfriended you."⟩] } := by
  unfold unfriend at h
  split at h
  · rename_i user friend hu hf
    injection h with h
    exact ⟨user, friend, hu, hf, h.symm⟩
  · cases h

theorem symmFriends_of_no_friends (db : DB) (h : ∀ p ∈ db, p.2.friends = []) :
    SymmFriends db := by
  intro a b ua ub _ ha hb
  have ha0 : ua.friends = [] := h (a, ua) (mem_of_findUser ha)
  have hb0 : ub.friends = [] := h (b, ub) (mem_of_findUser hb)
  simp [ha0, hb0]

/-- Preservation of symmetry by a save of a single record that leaves the
`friends` field semantically unchanged. -/
theorem symmFriends_set1 {db : DB} {f : String} {friend ff : User}
    (hf : findUser db f = some friend)
    (hff : ∀ x, x ≠ f → (x ∈ ff.friends ↔ x ∈ friend.friends))
    (h : SymmFriends db) : SymmFriends (setUser db f ff) := by
  intro a b ua2 ub2 hab ha2 hb2
  rw [findUser_setUser] at ha2 hb2
  by_cases haf : a = f
  · subst haf
    have hbf : b ≠ a := fun hh => hab hh.symm
    rw [if_pos rfl, hf] at ha2
    rw [if_neg hbf] at hb2
    injection ha2 with ha2
    subst ha2
    rw [hff b hbf]
    exact h a b friend ub2 hab hf hb2
  · rw [if_neg haf] at ha2
    by_cases hbf : b = f
    · subst hbf
      rw [if_pos rfl, hf] at hb2
      injection hb2 with hb2
      subst hb2
      rw [hff a haf]
      exact h a b ua2 friend hab ha2 hf
    · rw [if_neg hbf] at hb2
      exact h a b ua2 ub2 hab ha2 hb2

/-- Preservation of symmetry by a save of two records, given membership
descriptions of the two new `friends` fields. -/
theorem symmFriends_set2 {db : DB} {u f : String} {user friend uu ff : User}
    (hu : findUser db u = some user) (hf : findUser db f = some friend)
    (huu : ∀ x, x ≠ u → x ≠ f → (x ∈ uu.friends ↔ x ∈ user.friends))
    (hff : ∀ x, x ≠ u → x ≠ f → (x ∈ ff.friends ↔ x ∈ friend.friends))
    (hcross : u ∈ ff.friends ↔ f ∈ uu.friends)
    (h : SymmFriends db) : SymmFriends (setUser (setUser db u uu) f ff) := by
  intro a b ua2 ub2 hab ha2 hb2
  rw [findUser_set2] at ha2 hb2
  by_cases haf : a = f
  · subst haf
    rw [if_pos rfl, hf] at ha2
    injection ha2 with ha2
    subst ha2
    have hbf : b ≠ a := fun hh => hab hh.symm
    by_cases hbu : b = u
    · subst hbu
      rw [if_neg hbf, if_pos rfl, hu] at hb2
      injection hb2 with hb2
      subst hb2
      exact hcross
    · rw [if_neg hbf, if_neg hbu] at hb2
      rw [hff b hbu hbf]
      exact h a b friend ub2 hab hf hb2
  · by_cases hau : a = u
    · subst hau
      rw [if_neg haf, if_pos rfl, hu] at ha2
      injection ha2 with ha2
      subst ha2
      by_cases hbf : b = f
      · subst hbf
        rw [if_pos rfl, hf] at hb2
        injection hb2 with hb2
        subst hb2
        exact hcross.symm
      · have hbu : b ≠ a := fun hh => hab hh.symm
        rw [if_neg hbf, if_neg hbu] at hb2
        rw [huu b hbu hbf]
        exact h a b user ub2 hab hu hb2
    · rw [if_neg haf, if_neg hau] at ha2
      by_cases hbf : b = f
      · subst hbf
        rw [if_pos rfl, hf] at hb2
        injection hb2 with hb2
        subst hb2
        rw [hff a hau haf]
        exact h a b ua2 friend hab ha2 hf
      · by_cases hbu : b = u
        · subst hbu
          rw [if_neg hbf, if_pos rfl, hu] at hb2
          injection hb2 with hb2
          subst hb2
          rw [huu a hau haf]
          exact h a b ua2 user hab ha2 hu
        · rw [if_neg hbf, if_neg hbu] at hb2
          exact h a b ua2 ub2 hab ha2 hb2

theorem symmFriends_applyOp (db : DB) (op : Op) (h : SymmFriends db) :
    SymmFriends (applyOp db op) := by
  unfold applyOp
  cases hstep : stepOp db op with
  | error e => exact h
  | ok d =>
    show SymmFriends d
    cases op with
    | send u f =>
      obtain ⟨huf, user, friend, hu, hf, hfr, hdup, hd⟩ := sendRequest_ok hstep
      subst hd
      exact symmFriends_set1 hf (fun x _ => Iff.rfl) h
    | accept u f =>
      obtain ⟨user, friend, hu, hf, hreq, hd⟩ := acceptRequest_ok hstep
      subst hd
      refine symmFriends_set2 hu hf ?_ ?_ ?_ h
      · intro x _ hxf
        simp [mem_append_single, hxf]
      · intro x hxu _
        simp [mem_append_single, hxu]
      · simp [mem_append_single]
    | reject u f =>
      obtain ⟨user, friend, hu, hf, hreq, hd⟩ := rejectRequest_ok hstep
      subst hd
      refine symmFriends_set2 hu hf (fun x _ _ => Iff.rfl) (fun x _ _ => Iff.rfl) ?_ h
      by_cases huf : u = f
      · subst huf
        rw [hu] at hf
        injection hf with hf
        subst hf
        exact Iff.rfl
      · exact (h u f user friend huf hu hf).symm
    | unfriend u f =>
      obtain ⟨user, friend, hu, hf, hd⟩ := unfriend_ok hstep
      subst hd
      refine symmFriends_set2 hu hf ?_ ?_ ?_ h
      · intro x _ hxf
        simp [mem_filter_ne, hxf]
      · intro x hxu _
        simp [mem_filter_ne, hxu]
      · simp [mem_filter_ne]

/-- C1.  The friends relation stays symmetric under any finite sequence of
workflow operations, started from any symmetric state: for distinct users
A and B, A is in B's friends exactly when B is in A's friends. -/
theorem friends_symmetric_preserved (db : DB) (ops : List Op) (h : SymmFriends db) :
    SymmFriends (runOps db ops) := by
  induction ops generalizing db with
  | nil => exact h
  | cons op rest ih => exact ih (applyOp db op) (symmFriends_applyOp db op h)

/-! ### Notifications are append-only (claim C9) -/

/-- C9.  Any single workflow invocation leaves every stored user's existing
notifications as a prefix of the resulting ones: handlers only ever `push`
onto `notifications`, never mutate or remove entries. -/
theorem notifications_append_only (db : DB) (op : Op) (x : String) (xu : User)
    (h : findUser db x = some xu) :
    ∃ xu2 t, findUser (applyOp db op) x = some xu2 ∧
      xu2.notifications = xu.notifications ++ t := by
  unfold applyOp
  cases hstep : stepOp db op with
  | error e => exact ⟨xu, [], h, by simp⟩
  | ok d =>
    show ∃ xu2 t, findUser d x = some xu2 ∧ xu2.notifications = xu.notifications ++ t
    cases op with
    | send u f =>
      obtain ⟨huf, user, friend, hu, hf, hfr, hdup, hd⟩ := sendRequest_ok hstep
      subst hd
      rw [findUser_setUser]
      by_cases hxf : x = f
      · subst hxf
        rw [hf] at h
        injection h with h
        subst h
        rw [if_pos rfl, hf]
        exact ⟨_, [⟨user.username ++ " has sent you a friend request."⟩], rfl, rfl⟩
      · rw [if_neg hxf]
        exact ⟨xu, [], h, by simp⟩
    | accept u f =>
      obtain ⟨user, friend, hu, hf, hreq, hd⟩ := acceptRequest_ok hstep
      subst hd
      rw [findUser_set2]
      by_cases hxf : x = f
      · subst hxf
        rw [hf] at h
        injection h with h
        subst h
        rw [if_pos rfl, hf]
        exact ⟨_, [⟨user.username ++ " has accepted your friend request."⟩], rfl, rfl⟩
      · rw [if_neg hxf]
        by_cases hxu : x = u
        · subst hxu
          rw [hu] at h
          injection h with h
          subst h
          rw [if_pos rfl, hu]
          exact ⟨_, [], rfl, by simp⟩
        · rw [if_neg hxu]
          exact ⟨xu, [], h, by simp⟩
    | reject u f =>
      obtain ⟨user, friend, hu, hf, hreq, hd⟩ := rejectRequest_ok hstep
      subst hd
      rw [findUser_set2]
      by_cases hxf : x = f
      · subst hxf
        rw [hf] at h
        injection h with h
        subst h
        rw [if_pos rfl, hf]
        exact ⟨_, [⟨user.username ++ " has rejected your friend request."⟩], rfl, rfl⟩
      · rw [if_neg hxf]
        by_cases hxu : x = u
        · subst hxu
          rw [hu] at h
          injection h with h
          subst h
          rw [if_pos rfl, hu]
          exact ⟨_, [], rfl, by simp⟩
        · rw [if_neg hxu]
          exact ⟨xu, [], h, by simp⟩
    | unfriend u f =>
      obtain ⟨user, friend, hu, hf, hd⟩ := unfriend_ok hstep
      subst hd
      rw [findUser_set2]
      by_cases hxf : x = f
      · subst hxf
        rw [hf] at h
        injection h with h
        subst h
        rw [if_pos rfl, hf]
        exact ⟨_, [⟨user.username ++ " has unfriended you."⟩], rfl, rfl⟩
      · rw [if_neg hxf]
        by_cases hxu : x = u
        · subst hxu
          rw [hu] at h
          injection h with h
          subst h
          rw [if_pos rfl, hu]
          exact ⟨_, [], rfl, by simp⟩
        · rw [if_neg hxu]
          exact ⟨xu, [], h, by simp⟩

/-! ### sendRequest's frame (claim C10) -/

/-- C10.  A successful `sendRequest` only rewrites the target's record:
the requester lands at the end of the target's `friendRequests`, exactly
one notification is appended to the target, and every other user's record
— the requester's included — is untouched in every field. -/
theorem sendRequest_frame (db : DB) (u f : String) (d : DB)
    (h : sendRequest db u f = .ok d) :
    u ≠ f ∧ ∃ user friend,
      findUser db u = some user ∧ findUser db f = some friend ∧
      findUser d f = some
        { friend with
          friendRequests := friend.friendRequests ++ [u],
          notifications := friend.notifications ++
            [⟨user.username ++ " has sent you a friend request."⟩] } ∧
      (∀ x, x ≠ f → findUser d x = findUser db x) := by
  obtain ⟨huf, user, friend, hu, hf, hfr, hdup, hd⟩ := sendRequest_ok h
  subst hd
  refine ⟨huf, user, friend, hu, hf, ?_, ?_⟩
  · rw [findUser_setUser_self, hf]
    rfl
  · intro x hx
    exact findUser_setUser_ne db f _ hx

/-- Witness for C1 at a concrete symmetric two-user store and a concrete
request/accept run. -/
theorem friends_symmetric_preserved_witness :
    SymmFriends (runOps exDb [Op.send "a" "b", Op.accept "b" "a"]) :=
  friends_symmetric_preserved exDb [Op.send "a" "b", Op.accept "b" "a"]
    (symmFriends_of_no_friends exDb (by decide))

/-- Witness for C9: concrete request against the two-user store. -/
theorem notifications_append_only_witness :
    ∃ xu2 t, findUser (applyOp exDb (Op.send "a" "b")) "b" = some xu2 ∧
      xu2.notifications = (⟨"bob", [], [], [], []⟩ : User).notifications ++ t :=
  notifications_append_only exDb (Op.send "a" "b") "b" ⟨"bob", [], [], [], []⟩ (by rfl)

/-- C7.  Given a pending request from `a` in `b`'s queue, `accept(b, a)`
succeeds, removes `a` from `b`'s `friendRequests`, and an immediate replay
of the same accept fails with `NoSuchRequest`. -/
theorem accept_consumes_request (db : DB) (b a : String) (ub ua : User)
    (hab : a ≠ b) (hb : findUser db b = some ub) (ha : findUser db a = some ua)
    (hreq : a ∈ ub.friendRequests) :
    ∃ d, acceptRequest db b a = .ok d ∧
      (∀ ub2, findUser d b = some ub2 → a ∉ ub2.friendRequests) ∧
      acceptRequest d b a = .error .noSuchRequest := by
  have hba : b ≠ a := fun hh => hab hh.symm
  refine ⟨setUser (setUser db b
      { ub with
        friends := ub.friends ++ [a],
        friendRequests := ub.friendRequests.filter (fun id => id != a) }) a
      { ua with
        friends := ua.friends ++ [b],
        notifications := ua.notifications ++
          [⟨ub.username ++ " has accepted your friend request."⟩] }, ?_, ?_, ?_⟩
  · unfold acceptRequest
    rw [hb, ha]
    simp [hreq]
  · intro ub2 hub2
    rw [findUser_set2, if_neg hba, if_pos rfl, hb] at hub2
    injection hub2 with hub2
    subst hub2
    simp [mem_filter_ne]
  · have h1 : findUser (setUser (setUser db b
        { ub with
          friends := ub.friends ++ [a],
          friendRequests := ub.friendRequests.filter (fun id => id != a) }) a
        { ua with
          friends := ua.friends ++ [b],
          notifications := ua.notifications ++
            [⟨ub.username ++ " has accepted your friend request."⟩] }) b = some
        { ub with
          friends := ub.friends ++ [a],
          friendRequests := ub.friendRequests.filter (fun id => id != a) } := by
      rw [findUser_set2, if_neg hba, if_pos rfl, hb]
      rfl
    have h2 : findUser (setUser (setUser db b
        { ub with
          friends := ub.friends ++ [a],
          friendRequests := ub.friendRequests.filter (fun id => id != a) }) a
        { ua with
          friends := ua.friends ++ [b],
          notifications := ua.notifications ++
            [⟨ub.username ++ " has accepted your friend request."⟩] }) a = some
        { ua with
          friends := ua.friends ++ [b],
          notifications := ua.notifications ++
            [⟨ub.username ++ " has accepted your friend request."⟩] } := by
      rw [findUser_set2, if_pos rfl, ha]
      rfl
    unfold acceptRequest
    rw [h1, h2]
    have hnot : a ∉ ub.friendRequests.filter (fun id => id != a) := by
      simp [mem_filter_ne]
    simp [hnot]

/-- Witness for C7 at the concrete pending state. -/
theorem accept_consumes_request_witness :
    ∃ d, acceptRequest exPendingDb "b" "a" = .ok d ∧
      (∀ ub2, findUser d "b" = some ub2 → "a" ∉ ub2.friendRequests) ∧
      acceptRequest d "b" "a" = .error .noSuchRequest :=
  accept_consumes_request exPendingDb "b" "a"
    ⟨"bob", [], ["a"], [], [⟨"alice has sent you a friend request."⟩]⟩
    ⟨"alice", [], [], [], []⟩ (by decide) (by rfl) (by rfl) (by decide)

/-- Counterexample to C2: in the reachable state `exMutualDb` the pair is
in `friends` while a pending request between them (from `a`, recorded on
`b`) is still present — `friends` and `pendingIncomingRequests` are not
disjoint, and the accept did not remove every pending request between the
two users. -/
theorem pending_friends_disjoint_counterexample :
    "b" ∈ friendsOf exMutualDb "a" ∧ "a" ∈ friendsOf exMutualDb "b" ∧
    "a" ∈ pendingOf exMutualDb "b" ∧ "a" ≠ "b" := by decide

/-- C2 as amended: a successful `accept(u, f)` removes every occurrence of
`f` from `u`'s own `friendRequests` (the accepted direction); a reverse
pending request held by `f` is not touched. -/
theorem accept_clears_accepted_direction (db : DB) (u f : String) (d : DB)
    (huf : u ≠ f) (h : acceptRequest db u f = .ok d) :
    ∀ u2, findUser d u = some u2 → f ∉ u2.friendRequests := by
  obtain ⟨user, friend, hu, hf, hreq, hd⟩ := acceptRequest_ok h
  subst hd
  intro u2 hu2
  rw [findUser_set2, if_neg huf, if_pos rfl, hu] at hu2
  injection hu2 with hu2
  subst hu2
  simp [mem_filter_ne]

/-- Witness for the amended C2 at the concrete pending state. -/
theorem accept_clears_accepted_direction_witness :
    "a" ∉ (⟨"bob", ["a"], [], [],
      [⟨"alice has sent you a friend request."⟩]⟩ : User).friendRequests :=
  accept_clears_accepted_direction exPendingDb "b" "a" exAcceptDb (by decide) (by rfl)
    ⟨"bob", ["a"], [], [], [⟨"alice has sent you a friend request."⟩]⟩ (by rfl)

/-- Counterexample to C6: in the reachable state `exMutualDb`, `a` is
already pending in `b`'s queue, both users exist and are distinct, yet a
further `sendRequest(a, b)` fails with `AlreadyFriends` (the friendship
check fires first), not `DuplicateRequest`. -/
theorem duplicate_request_counterexample :
    "a" ∈ pendingOf exMutualDb "b" ∧ (findUser exMutualDb "a").isSome = true ∧
    (findUser exMutualDb "b").isSome = true ∧ "a" ≠ "b" ∧
    sendRequest exMutualDb "a" "b" = .error .alreadyFriends :=
  ⟨by decide, by decide, by decide, by decide, by rfl⟩

/-- C6 as amended: when additionally the pair is not already friends in
either record, a duplicate request fails with `DuplicateRequest` and the
whole store is left exactly as it was. -/
theorem duplicate_request_rejected (db : DB) (a b : String) (ua ub : User)
    (hab : a ≠ b) (ha : findUser db a = some ua) (hb : findUser db b = some ub)
    (hnf : ¬(b ∈ ua.friends ∨ a ∈ ub.friends)) (hdup : a ∈ ub.friendRequests) :
    sendRequest db a b = .error .duplicateRequest ∧ applyOp db (.send a b) = db := by
  have hs : sendRequest db a b = .error .duplicateRequest := by
    unfold sendRequest
    rw [if_neg hab, ha, hb]
    simp [hnf, hdup]
  refine ⟨hs, ?_⟩
  show resultDB db (sendRequest db a b) = db
  rw [hs]
  rfl

/-- Witness for the amended C6 at the concrete pending state. -/
theorem duplicate_request_rejected_witness :
    sendRequest exPendingDb "a" "b" = .error .duplicateRequest ∧
      applyOp exPendingDb (.send "a" "b") = exPendingDb :=
  duplicate_request_rejected exPendingDb "a" "b" ⟨"alice", [], [], [], []⟩
    ⟨"bob", [], ["a"], [], [⟨"alice has sent you a friend request."⟩]⟩
    (by decide) (by rfl) (by rfl) (by decide) (by decide)

/-! ### unfriend has no NotFriends guard (claim C3) -/

/-- Counterexample to C3: in `exDb` the users `a` and `b` exist, are
distinct and are not friends, yet `unfriend(a, b)` does not fail — it
answers success and appends an "has unfriended you." notification to `b`,
so `b`'s record changes. -/
theorem unfriend_not_friends_counterexample :
    friendsOf exDb "a" = [] ∧ friendsOf exDb "b" = [] ∧
    unfriend exDb "a" "b" =
      .ok [("a", ⟨"alice", [], [], [], []⟩),
           ("b", ⟨"bob", [], [], [], [⟨"alice has unfriended you."⟩]⟩)] ∧
    applyOp exDb (.unfriend "a" "b") ≠ exDb :=
  ⟨by decide, by decide, by rfl, by decide⟩

/-- C3 as amended: `unfriend` succeeds for any two existing users whether
or not they are friends; it filters each out of the other's `friends`
(a no-op when not friends) and always appends the notification to the
other user. -/
theorem unfriend_unconditional (db : DB) (u f : String) (uu fu : User)
    (huf : u ≠ f) (hu : findUser db u = some uu) (hf : findUser db f = some fu) :
    ∃ d, unfriend db u f = .ok d ∧
      findUser d u = some { uu with friends := uu.friends.filter (fun id => id != f) } ∧
      findUser d f = some
        { fu with
          friends := fu.friends.filter (fun id => id != u),
          notifications := fu.notifications ++ [⟨uu.username ++ " has unfriended you."⟩] } ∧
      ∀ x, x ≠ u → x ≠ f → findUser d x = findUser db x := by
  refine ⟨setUser (setUser db u
      { uu with friends := uu.friends.filter (fun id => id != f) }) f
      { fu with
        friends := fu.friends.filter (fun id => id != u),
        notifications := fu.notifications ++ [⟨uu.username ++ " has unfriended you."⟩] },
    ?_, ?_, ?_, ?_⟩
  · unfold unfriend
    rw [hu, hf]
  · rw [findUser_set2, if_neg huf, if_pos rfl, hu]
    rfl
  · rw [findUser_set2, if_pos rfl, hf]
    rfl
  · intro x hxu hxf
    rw [findUser_set2, if_neg hxf, if_neg hxu]

/-- Witness for the amended C3: unfriending two users that were never
friends. -/
theorem unfriend_unconditional_witness :
    ∃ d, unfriend exDb "a" "b" = .ok d ∧
      findUser d "a" = some ⟨"alice", [], [], [], []⟩ ∧
      findUser d "b" = some ⟨"bob", [], [], [], [⟨"alice has unfriended you."⟩]⟩ ∧
      ∀ x, x ≠ "a" → x ≠ "b" → findUser d x = findUser exDb x :=
  unfriend_unconditional exDb "a" "b" ⟨"alice", [], [], [], []⟩ ⟨"bob", [], [], [], []⟩
    (by decide) (by rfl) (by rfl)

/-- Witness for C10: the concrete request from `exDb`. -/
theorem sendRequest_frame_witness :
    "a" ≠ "b" ∧ ∃ user friend,
      findUser exDb "a" = some user ∧ findUser exDb "b" = some friend ∧
      findUser exSendDb "b" = some
        { friend with
          friendRequests := friend.friendRequests ++ ["a"],
          notifications := friend.notifications ++
            [⟨user.username ++ " has sent you a friend request."⟩] } ∧
      (∀ x, x ≠ "b" → findUser exSendDb x = findUser exDb x) :=
  sendRequest_frame exDb "a" "b" exSendDb (by rfl)

/-! ### Sorting lemmas -/

theorem orderedInsertLE_perm (le : String × RecEntry → String × RecEntry → Bool)
    (x : String × RecEntry) (l : List (String × RecEntry)) :
    (orderedInsertLE le x l).Perm (x :: l) := by
  induction l with
  | nil => exact List.Perm.refl _
  | cons y ys ih =>
    unfold orderedInsertLE
    split
    · exact List.Perm.refl _
    · exact (ih.cons y).trans (List.Perm.swap x y ys)

theorem sortRecs_perm (le : String × RecEntry → String × RecEntry → Bool)
    (l : List (String × RecEntry)) : (sortRecs le l).Perm l := by
  induction l with
  | nil => exact List.Perm.refl _
  | cons x xs ih => exact (orderedInsertLE_perm le x _).trans (ih.cons x)

theorem mem_orderedInsertLE {le : String × RecEntry → String × RecEntry → Bool}
    {x z : String × RecEntry} {l : List (String × RecEntry)} :
    z ∈ orderedInsertLE le x l ↔ z = x ∨ z ∈ l := by
  have h := (orderedInsertLE_perm le x l).mem_iff (a := z)
  simpa using h

theorem orderedInsertLE_pairwise (le : String × RecEntry → String × RecEntry → Bool)
    (htotal : ∀ a b, (le a b || le b a) = true)
    (htrans : ∀ a b c, le a b = true → le b c = true → le a c = true)
    (x : String × RecEntry) (l : List (String × RecEntry))
    (hl : l.Pairwise (fun a b => le a b = true)) :
    (orderedInsertLE le x l).Pairwise (fun a b => le a b = true) := by
  induction l with
  | nil => simp [orderedInsertLE]
  | cons y ys ih =>
    rcases List.pairwise_cons.mp hl with ⟨hy, hys⟩
    unfold orderedInsertLE
    split
    · rename_i hxy
      refine List.pairwise_cons.mpr ⟨?_, hl⟩
      intro z hz
      rcases List.mem_cons.mp hz with rfl | hz
      · exact hxy
      · exact htrans x y z hxy (hy z hz)
    · rename_i hxy
      have hyx : le y x = true := by
        rcases Bool.or_eq_true_iff.mp (htotal x y) with h | h
        · exact absurd h hxy
        · exact h
      refine List.pairwise_cons.mpr ⟨?_, ih hys⟩
      intro z hz
      rcases mem_orderedInsertLE.mp hz with rfl | hz
      · exact hyx
      · exact hy z hz

theorem sortRecs_pairwise (le : String × RecEntry → String × RecEntry → Bool)
    (htotal : ∀ a b, (le a b || le b a) = true)
    (htrans : ∀ a b c, le a b = true → le b c = true → le a c = true)
    (l : List (String × RecEntry)) :
    (sortRecs le l).Pairwise (fun a b => le a b = true) := by
  induction l with
  | nil => simp [sortRecs]
  | cons x xs ih => exact orderedInsertLE_pairwise le htotal htrans x _ ih

theorem recLE_total : ∀ a b, (recLE a b || recLE b a) = true := by
  intro a b
  simp [recLE]
  omega

theorem recLE_trans : ∀ a b c, recLE a b = true → recLE b c = true → recLE a c = true := by
  intro a b c hab hbc
  simp [recLE] at hab hbc ⊢
  omega

/-! ### Candidate keys of the recommendation accumulator -/

theorem foldl_preserve {α β : Type} (P : β → Prop) (step : β → α → β) :
    ∀ (l : List α) (init : β),
      (∀ b a, a ∈ l → P b → P (step b a)) → P init → P (l.foldl step init)
  | [], _, _, hinit => hinit
  | x :: xs, init, hstep, hinit =>
    foldl_preserve P step xs (step init x)
      (fun b a ha hb => hstep b a (List.mem_cons_of_mem _ ha) hb)
      (hstep init x (List.mem_cons_self _ _) hinit)

theorem findUser_isSome_of_mem {db : DB} {k : String} {v : User} (h : (k, v) ∈ db) :
    (findUser db k).isSome := by
  induction db with
  | nil => cases h
  | cons hd tl ih =>
    obtain ⟨k2, v2⟩ := hd
    rcases List.mem_cons.mp h with heq | hmem
    · injection heq with h1 h2
      subst h1
      simp [findUser]
    · by_cases hk : k2 = k
      · simp [findUser, hk]
      · simp [findUser, hk]
        exact ih hmem

theorem interestPass_goodKeys (db : DB) (uid : String) (user : User)
    (friendIds : List String) :
    ∀ p ∈ interestPass db uid user friendIds, GoodKey db uid friendIds p.1 := by
  unfold interestPass
  refine foldl_preserve (fun recs => ∀ p ∈ recs, GoodKey db uid friendIds p.1)
    (interestStep user friendIds) (commonInterestUsers db uid user) [] ?_ ?_
  · intro recs cand hcand hrecs p hp
    unfold interestStep at hp
    split at hp
    · exact hrecs p hp
    · rename_i hcond
      push_neg at hcond
      rcases List.mem_append.mp hp with h | h
      · exact hrecs p h
      · have hp1 : p.1 = cand.1 := by
          rcases List.mem_singleton.mp h with rfl
          rfl
        rw [hp1]
        have hmem := List.mem_filter.mp hcand
        have hne : cand.1 ≠ uid := by
          have := hmem.2
          simp at this
          exact this.1
        refine ⟨hne, hcond.1, ?_⟩
        have : (cand.1, cand.2) ∈ db := hmem.1
        exact findUser_isSome_of_mem this
  · intro p hp
    cases hp

theorem mutualPass_goodKeys (db : DB) (uid : String) (friendIds : List String)
    (recs0 : List (String × RecEntry))
    (h0 : ∀ p ∈ recs0, GoodKey db uid friendIds p.1) :
    ∀ p ∈ mutualPass db uid friendIds recs0, GoodKey db uid friendIds p.1 := by
  unfold mutualPass
  refine foldl_preserve (fun recs => ∀ p ∈ recs, GoodKey db uid friendIds p.1)
    _ friendIds recs0 ?_ ?_
  · intro recs fid _ hrecs
    cases hfu : findUser db fid with
    | none =>
      simp only [hfu]
      exact hrecs
    | some fu =>
      simp only [hfu]
      refine foldl_preserve (fun recs => ∀ p ∈ recs, GoodKey db uid friendIds p.1)
        (mutualStep db uid friendIds) (existingIds db fu.friends) recs ?_ hrecs
      · intro recs2 gid hgid hrecs2 p hp
        unfold mutualStep at hp
        split at hp
        · exact hrecs2 p hp
        · rename_i hcond
          push_neg at hcond
          cases hgu : findUser db gid with
          | none =>
            rw [hgu] at hp
            exact hrecs2 p hp
          | some gu =>
            rw [hgu] at hp
            replace hp : p ∈ bumpMutual recs2 gid gu.username := hp
            unfold bumpMutual at hp
            by_cases hpres : (recFind recs2 gid).isSome = true
            · rw [if_pos hpres] at hp
              rcases List.mem_map.mp hp with ⟨q, hq, hqp⟩
              have hkey : p.1 = q.1 := by
                rw [← hqp]
                by_cases hqg : q.1 = gid <;> simp [hqg]
              rw [hkey]
              exact hrecs2 q hq
            · rw [if_neg hpres] at hp
              rcases List.mem_append.mp hp with h | h
              · exact hrecs2 p h
              · have hp1 : p.1 = gid := by
                  rcases List.mem_singleton.mp h with rfl
                  rfl
                rw [hp1]
                exact ⟨hcond.1, hcond.2, by rw [hgu]; rfl⟩
  · exact h0

theorem recommend_ok {db : DB} {uid : String} {out : List (String × RecEntry)}
    (h : recommend db uid = .ok out) :
    ∃ user, findUser db uid = some user ∧
      out = sortRecs recLE
        (mutualPass db uid (existingIds db user.friends)
          (interestPass db uid user (existingIds db user.friends))) := by
  unfold recommend at h
  split at h
  · cases h
  · rename_i user hu
    injection h with h
    exact ⟨user, hu, h.symm⟩

/-- C5.  Neither the user themselves nor any of their friends ever
appears among the returned candidates. -/
theorem recommend_excludes_self_and_friends (db : DB) (uid : String) (user : User)
    (out : List (String × RecEntry))
    (hu : findUser db uid = some user) (hout : recommend db uid = .ok out) :
    ∀ c r, (c, r) ∈ out → c ≠ uid ∧ c ∉ user.friends := by
  obtain ⟨user2, hu2, hform⟩ := recommend_ok hout
  rw [hu] at hu2
  injection hu2 with hu2
  subst hu2
  intro c r hcr
  rw [hform] at hcr
  have hmem : (c, r) ∈ mutualPass db uid (existingIds db user.friends)
      (interestPass db uid user (existingIds db user.friends)) :=
    ((sortRecs_perm recLE _).mem_iff).mp hcr
  have hgood := mutualPass_goodKeys db uid _ _
    (interestPass_goodKeys db uid user _) _ hmem
  obtain ⟨h1, h2, h3⟩ := hgood
  refine ⟨h1, fun hc => h2 ?_⟩
  exact List.mem_filter.mpr ⟨hc, h3⟩

/-- C8.  The returned list is sorted descending by `commonInterests`,
ties descending by `mutualFriends`; the output is a function of the
store, hence deterministic for a fixed graph. -/
theorem recommend_sorted (db : DB) (uid : String) (out : List (String × RecEntry))
    (hout : recommend db uid = .ok out) :
    out.Pairwise (fun a b =>
      b.2.commonInterests < a.2.commonInterests ∨
        (a.2.commonInterests = b.2.commonInterests ∧
          b.2.mutualFriends ≤ a.2.mutualFriends)) := by
  obtain ⟨user, hu, hform⟩ := recommend_ok hout
  rw [hform]
  refine (sortRecs_pairwise recLE recLE_total recLE_trans _).imp ?_
  intro a b h
  simp [recLE] at h
  omega

/-- Witness for C5 on the concrete graph. -/
theorem recommend_excludes_witness :
    "c1" ≠ "u" ∧ "c1" ∉ (⟨"ursula", ["f"], [], ["x", "y"], []⟩ : User).friends :=
  recommend_excludes_self_and_friends exRecDb "u"
    ⟨"ursula", ["f"], [], ["x", "y"], []⟩ exRecOut (by rfl) (by rfl)
    "c1" ⟨"carol", 0, 1⟩ (by decide)

/-- Witness for C8 on the concrete graph. -/
theorem recommend_sorted_witness :
    exRecOut.Pairwise (fun a b =>
      b.2.commonInterests < a.2.commonInterests ∨
        (a.2.commonInterests = b.2.commonInterests ∧
          b.2.mutualFriends ≤ a.2.mutualFriends)) :=
  recommend_sorted exRecDb "u" exRecOut (by rfl)

/-! ### Exact accumulator contents (claim C4) -/

theorem recFind_none_iff {recs : List (String × RecEntry)} {c : String} :
    recFind recs c = none ↔ ∀ p ∈ recs, p.1 ≠ c := by
  simp [recFind, List.find?_eq_none]

theorem recFind_append (recs : List (String × RecEntry)) (k : String) (v : RecEntry)
    (c : String) :
    recFind (recs ++ [(k, v)]) c =
      match recFind recs c with
      | some r => some r
      | none => if k = c then some v else none := by
  unfold recFind
  rw [List.find?_append]
  cases h : recs.find? (fun p => decide (p.1 = c)) with
  | some q => simp [Option.or]
  | none =>
    by_cases hk : k = c <;> simp [Option.or, List.find?, hk]

theorem recFind_cons (z : String × RecEntry) (rest : List (String × RecEntry))
    (c : String) :
    recFind (z :: rest) c = if z.1 = c then some z.2 else recFind rest c := by
  by_cases h : z.1 = c <;> simp [recFind, List.find?_cons, h]

theorem recFind_map_bump (recs : List (String × RecEntry)) (gid c : String) :
    recFind (recs.map (fun p =>
        if p.1 = gid then (p.1, { p.2 with mutualFriends := p.2.mutualFriends + 1 })
        else p)) c =
      if c = gid then
        (recFind recs c).map (fun r => { r with mutualFriends := r.mutualFriends + 1 })
      else recFind recs c := by
  induction recs with
  | nil => by_cases hc : c = gid <;> simp [recFind, hc]
  | cons q recs ih =>
    simp only [List.map_cons, recFind_cons]
    by_cases hqc : q.1 = c
    · by_cases hqg : q.1 = gid
      · have hcg : c = gid := by rw [← hqc, hqg]
        simp [hqc, hqg, hcg]
      · have hcg : ¬c = gid := fun h => hqg (by rw [hqc, h])
        simp [hqc, hqg, hcg]
    · by_cases hcg : c = gid
      · subst hcg
        simp [hqc, ih]
      · have hgc : ¬gid = c := fun h => hcg h.symm
        by_cases hqg : q.1 = gid <;> simp [hqg, hqc, hcg, hgc, ih]

theorem recFind_bumpMutual (recs : List (String × RecEntry)) (gid un c : String) :
    recFind (bumpMutual recs gid un) c =
      if c = gid then
        match recFind recs gid with
        | some r => some { r with mutualFriends := r.mutualFriends + 1 }
        | none => some ⟨un, 0, 1⟩
      else recFind recs c := by
  unfold bumpMutual
  by_cases hpres : (recFind recs gid).isSome = true
  · rw [if_pos hpres, recFind_map_bump]
    by_cases hc : c = gid
    · subst hc
      cases hr : recFind recs c with
      | some r => simp [hr]
      | none => rw [hr] at hpres; cases hpres
    · rw [if_neg hc, if_neg hc]
  · rw [if_neg hpres, recFind_append]
    by_cases hc : c = gid
    · subst hc
      cases hr : recFind recs c with
      | some r => rw [hr] at hpres; exact absurd rfl hpres
      | none => simp [hr]
    · have hgc : ¬gid = c := fun h => hc h.symm
      cases hr : recFind recs c with
      | some r => simp [hr, hc]
      | none => simp [hr, hc, hgc]

/-- Exact effect of one friend's inner loop on the entry of a candidate
`c` that is neither the user nor a direct friend: its mutual count grows
by the number of occurrences of `c` in the walked friend list, and the
entry is created (with zero `commonInterests`) when first reached. -/
theorem mutual_fold_find (db : DB) (uid : String) (friendIds : List String) (c : String)
    (hc1 : c ≠ uid) (hc2 : c ∉ friendIds) :
    ∀ (gs : List String) (recs : List (String × RecEntry)),
      (∀ g ∈ gs, (findUser db g).isSome) →
      recFind (gs.foldl (mutualStep db uid friendIds) recs) c =
        match recFind recs c with
        | some r => some { r with mutualFriends := r.mutualFriends + gs.count c }
        | none =>
          if c ∈ gs then
            match findUser db c with
            | some cu => some ⟨cu.username, 0, gs.count c⟩
            | none => none
          else none := by
  intro gs
  induction gs with
  | nil =>
    intro recs _
    simp only [List.foldl_nil, List.count_nil]
    cases hr : recFind recs c with
    | some r => simp [hr]
    | none => simp [hr]
  | cons g gs ih =>
    intro recs hex
    have hex2 : ∀ x ∈ gs, (findUser db x).isSome :=
      fun x hx => hex x (List.mem_cons_of_mem _ hx)
    simp only [List.foldl_cons]
    by_cases hg : g = uid ∨ g ∈ friendIds
    · have hstep : mutualStep db uid friendIds recs g = recs := by
        unfold mutualStep
        rw [if_pos hg]
      rw [hstep, ih recs hex2]
      have hcg : ¬c = g := by
        rintro rfl
        rcases hg with h | h
        · exact hc1 h
        · exact hc2 h
      have hcount : (g :: gs).count c = gs.count c := by
        simp [List.count_cons, hcg]
      have hmem : (c ∈ g :: gs) ↔ c ∈ gs := by
        simp [List.mem_cons, hcg]
      rw [hcount]
      simp only [hmem]
    · push_neg at hg
      obtain ⟨hgu1, hgu2⟩ := hg
      have hgex := hex g (List.mem_cons_self _ _)
      obtain ⟨gu, hgu⟩ := Option.isSome_iff_exists.mp hgex
      have hstep : mutualStep db uid friendIds recs g = bumpMutual recs g gu.username := by
        unfold mutualStep
        rw [if_neg (by push_neg; exact ⟨hgu1, hgu2⟩), hgu]
      rw [hstep, ih _ hex2, recFind_bumpMutual]
      by_cases hcg : c = g
      · subst hcg
        rw [if_pos rfl]
        cases hr : recFind recs c with
        | some r =>
          simp [List.count_cons]
          omega
        | none =>
          simp [List.count_cons, hgu]
          omega
      · rw [if_neg hcg]
        have hcount : (g :: gs).count c = gs.count c := by
          simp [List.count_cons, hcg]
        have hmem : (c ∈ g :: gs) ↔ c ∈ gs := by
          simp [List.mem_cons, hcg]
        rw [hcount]
        simp only [hmem]

/-- Exact effect of the whole mutual-friend pass on the entry of a
well-excluded candidate. -/
theorem mutualPass_find (db : DB) (uid : String) (friendIds : List String) (c : String)
    (hc1 : c ≠ uid) (hc2 : c ∉ friendIds) :
    ∀ (fids : List String) (recs0 : List (String × RecEntry)),
      recFind (fids.foldl (fun recs fid =>
          match findUser db fid with
          | some fu => (existingIds db fu.friends).foldl (mutualStep db uid friendIds) recs
          | none => recs) recs0) c =
        match recFind recs0 c with
        | some r => some { r with mutualFriends := r.mutualFriends + mutualCount db fids c }
        | none =>
          if 0 < mutualCount db fids c then
            match findUser db c with
            | some cu => some ⟨cu.username, 0, mutualCount db fids c⟩
            | none => none
          else none := by
  intro fids
  induction fids with
  | nil =>
    intro recs0
    simp only [List.foldl_nil, mutualCount, List.map_nil, List.sum_nil]
    cases hr : recFind recs0 c with
    | some r => simp [hr]
    | none => simp [hr]
  | cons fid fids ih =>
    intro recs0
    simp only [List.foldl_cons]
    cases hfu : findUser db fid with
    | none =>
      have hmc : mutualCount db (fid :: fids) c = mutualCount db fids c := by
        simp [mutualCount, hfu]
      rw [ih recs0, hmc]
    | some fu =>
      have hmc : mutualCount db (fid :: fids) c =
          (existingIds db fu.friends).count c + mutualCount db fids c := by
        simp [mutualCount, hfu]
      rw [ih _]
      have hex : ∀ g ∈ existingIds db fu.friends, (findUser db g).isSome := by
        intro g hgm
        exact (List.mem_filter.mp hgm).2
      rw [mutual_fold_find db uid friendIds c hc1 hc2 (existingIds db fu.friends) recs0 hex]
      rw [hmc]
      cases hr : recFind recs0 c with
      | some r =>
        simp [Nat.add_assoc]
      | none =>
        by_cases hcm : c ∈ existingIds db fu.friends
        · have hk1 : 0 < (existingIds db fu.friends).count c :=
            List.count_pos_iff.mpr hcm
          rw [if_pos hcm]
          cases hcu : findUser db c with
          | none => simp
          | some cu =>
            have htot : 0 < (existingIds db fu.friends).count c + mutualCount db fids c := by
              omega
            simp [htot]
        · have hk0 : (existingIds db fu.friends).count c = 0 :=
            List.count_eq_zero.mpr hcm
          rw [if_neg hcm, hk0]
          simp

/-- Exact effect of the interest pass on the entry of candidate `c`:
entries already present are never modified; otherwise the first matching
candidate record determines the entry, unless `c` is a direct friend. -/
theorem interest_fold_find (user : User) (friendIds : List String) (c : String) :
    ∀ (cands : List (String × User)) (recs0 : List (String × RecEntry)),
      recFind (cands.foldl (interestStep user friendIds) recs0) c =
        match recFind recs0 c,
          (if c ∈ friendIds then none
           else cands.find? (fun p => decide (p.1 = c))) with
        | some r, _ => some r
        | none, some p => some ⟨p.2.username,
            (user.interests.filter (fun i => decide (i ∈ p.2.interests))).length, 0⟩
        | none, none => none := by
  intro cands
  induction cands with
  | nil =>
    intro recs0
    simp only [List.foldl_nil, List.find?_nil]
    cases hr : recFind recs0 c with
    | some r => rfl
    | none => by_cases hf : c ∈ friendIds <;> simp [hf]
  | cons q cands ih =>
    intro recs0
    simp only [List.foldl_cons]
    by_cases hcond : q.1 ∈ friendIds ∨ (recFind recs0 q.1).isSome = true
    · have hstep : interestStep user friendIds recs0 q = recs0 := by
        unfold interestStep
        rw [if_pos hcond]
      rw [hstep, ih recs0]
      by_cases hqc : q.1 = c
      · rw [List.find?_cons_of_pos _ (by simp [hqc])]
        rcases hcond with hf | hs
        · rw [hqc] at hf
          simp only [if_pos hf]
        · rw [hqc] at hs
          obtain ⟨r, hr⟩ := Option.isSome_iff_exists.mp hs
          rw [hr]
      · rw [List.find?_cons_of_neg _ (by simp [hqc])]
    · push_neg at hcond
      obtain ⟨hqf, hqn⟩ := hcond
      have hqnone : recFind recs0 q.1 = none := by
        cases h : recFind recs0 q.1 with
        | some r => rw [h] at hqn; exact absurd rfl hqn
        | none => rfl
      have hstep : interestStep user friendIds recs0 q =
          recs0 ++ [(q.1, ⟨q.2.username,
            (user.interests.filter (fun i => decide (i ∈ q.2.interests))).length, 0⟩)] := by
        unfold interestStep
        rw [if_neg (by push_neg; exact ⟨hqf, by rw [hqnone]; simp⟩)]
      rw [hstep, ih _, recFind_append]
      by_cases hqc : q.1 = c
      · subst hqc
        rw [hqnone, List.find?_cons_of_pos _ (by simp)]
        simp [hqf]
      · rw [List.find?_cons_of_neg _ (by simp [hqc])]
        cases hr : recFind recs0 c with
        | some r => simp [hqc]
        | none => simp [hqc]

/-- With unique ids, the step-1 query returns the candidate's own record
for key `c` exactly when `c` qualifies. -/
theorem find_commonInterestUsers (uid : String) (user : User) (c : String) (cu : User) :
    ∀ (db : DB), (db.map Prod.fst).Nodup → findUser db c = some cu →
      (commonInterestUsers db uid user).find? (fun p => decide (p.1 = c)) =
        if c ≠ uid ∧ cu.interests.any (fun i => decide (i ∈ user.interests)) = true
        then some (c, cu) else none := by
  intro db
  induction db with
  | nil =>
    intro _ hc
    simp [findUser] at hc
  | cons hd tl ih =>
    intro hnd hc
    obtain ⟨k, v⟩ := hd
    simp only [List.map_cons] at hnd
    rcases List.nodup_cons.mp hnd with ⟨hknin, hndtl⟩
    unfold commonInterestUsers
    rw [List.filter_cons]
    by_cases hkc : k = c
    · subst hkc
      have hv : v = cu := by
        simp [findUser] at hc
        exact hc
      subst hv
      by_cases hpred :
          (decide (¬(k, v).1 = uid) &&
            (k, v).2.interests.any (fun i => decide (i ∈ user.interests))) = true
      · rw [if_pos hpred, List.find?_cons_of_pos _ (by simp)]
        have hsplit : k ≠ uid ∧ v.interests.any (fun i => decide (i ∈ user.interests)) = true := by
          simpa using hpred
        rw [if_pos hsplit]
      · rw [if_neg hpred]
        have hnone : ((commonInterestUsers tl uid user).find?
            (fun p => decide (p.1 = k))) = none := by
          rw [List.find?_eq_none]
          intro p hp hdec
          have hptl : p ∈ tl := (List.mem_filter.mp hp).1
          have hkey : p.1 ∈ tl.map Prod.fst := List.mem_map_of_mem _ hptl
          rw [decide_eq_true_eq] at hdec
          rw [hdec] at hkey
          exact hknin hkey
        have hres : ¬(k ≠ uid ∧
            v.interests.any (fun i => decide (i ∈ user.interests)) = true) := by
          intro hcontra
          exact hpred (by simpa using hcontra)
        rw [if_neg hres]
        exact hnone
    · have hctl : findUser tl c = some cu := by
        simp [findUser, hkc] at hc
        exact hc
      by_cases hpred :
          (decide (¬(k, v).1 = uid) &&
            (k, v).2.interests.any (fun i => decide (i ∈ user.interests))) = true
      · rw [if_pos hpred, List.find?_cons_of_neg _ (by simp [hkc])]
        exact ih hndtl hctl
      · rw [if_neg hpred]
        exact ih hndtl hctl

/-- The interest pass gives candidate `c` exactly the common-interest
count of its own record, or no entry when it shares no interest. -/
theorem interestPass_find (db : DB) (uid : String) (user : User)
    (friendIds : List String) (c : String) (cu : User)
    (hnd : (db.map Prod.fst).Nodup)
    (hc : findUser db c = some cu) (hcf : c ∉ friendIds) (hcuid : c ≠ uid) :
    recFind (interestPass db uid user friendIds) c =
      if cu.interests.any (fun i => decide (i ∈ user.interests)) = true then
        some ⟨cu.username,
          (user.interests.filter (fun i => decide (i ∈ cu.interests))).length, 0⟩
      else none := by
  unfold interestPass
  rw [interest_fold_find user friendIds c (commonInterestUsers db uid user) [],
    if_neg hcf, find_commonInterestUsers uid user c cu db hnd hc]
  by_cases hany : cu.interests.any (fun i => decide (i ∈ user.interests)) = true
  · rw [if_pos ⟨hcuid, hany⟩, if_pos hany]
    rfl
  · rw [if_neg (fun h => hany h.2), if_neg hany]
    rfl

theorem not_mem_keys_of_recFind_none {recs : List (String × RecEntry)} {c : String}
    (h : recFind recs c = none) : c ∉ recs.map Prod.fst := by
  intro hc
  rcases List.mem_map.mp hc with ⟨p, hp, hpc⟩
  exact (recFind_none_iff.mp h p hp) hpc

theorem interestPass_keysNodup (db : DB) (uid : String) (user : User)
    (friendIds : List String) :
    ((interestPass db uid user friendIds).map Prod.fst).Nodup := by
  unfold interestPass
  refine foldl_preserve (fun recs => (recs.map Prod.fst).Nodup)
    (interestStep user friendIds) (commonInterestUsers db uid user) [] ?_ (by simp)
  intro recs cand _ hnd
  unfold interestStep
  by_cases hcond : cand.1 ∈ friendIds ∨ (recFind recs cand.1).isSome = true
  · rw [if_pos hcond]
    exact hnd
  · rw [if_neg hcond]
    push_neg at hcond
    have hnone : recFind recs cand.1 = none := by
      cases h : recFind recs cand.1 with
      | some r => rw [h] at hcond; exact absurd rfl hcond.2
      | none => rfl
    rw [List.map_append, List.nodup_append]
    refine ⟨hnd, List.nodup_singleton _, ?_⟩
    intro a ha hb
    simp at hb
    subst hb
    exact not_mem_keys_of_recFind_none hnone ha

theorem mutualPass_keysNodup (db : DB) (uid : String) (friendIds : List String)
    (recs0 : List (String × RecEntry)) (h0 : (recs0.map Prod.fst).Nodup) :
    ((mutualPass db uid friendIds recs0).map Prod.fst).Nodup := by
  unfold mutualPass
  refine foldl_preserve (fun recs => (recs.map Prod.fst).Nodup) _ friendIds recs0 ?_ h0
  intro recs fid _ hnd
  cases hfu : findUser db fid with
  | none =>
    simp only [hfu]
    exact hnd
  | some fu =>
    simp only [hfu]
    refine foldl_preserve (fun recs => (recs.map Prod.fst).Nodup)
      (mutualStep db uid friendIds) (existingIds db fu.friends) recs ?_ hnd
    intro recs2 gid _ hnd2
    unfold mutualStep
    by_cases hg : gid = uid ∨ gid ∈ friendIds
    · rw [if_pos hg]
      exact hnd2
    · rw [if_neg hg]
      cases hgu : findUser db gid with
      | none =>
        simp only [hgu]
        exact hnd2
      | some gu =>
        simp only [hgu]
        unfold bumpMutual
        by_cases hpres : (recFind recs2 gid).isSome = true
        · rw [if_pos hpres]
          have hkeys : ((recs2.map (fun p =>
              if p.1 = gid then (p.1, { p.2 with mutualFriends := p.2.mutualFriends + 1 })
              else p)).map Prod.fst) = recs2.map Prod.fst := by
            rw [List.map_map]
            apply List.map_congr_left
            intro p _
            by_cases h : p.1 = gid <;> simp [h]
          rw [hkeys]
          exact hnd2
        · rw [if_neg hpres]
          have hnone : recFind recs2 gid = none := by
            cases h : recFind recs2 gid with
            | some r => rw [h] at hpres; exact absurd rfl hpres
            | none => rfl
          rw [List.map_append, List.nodup_append]
          refine ⟨hnd2, List.nodup_singleton _, ?_⟩
          intro a ha hb
          simp at hb
          subst hb
          exact not_mem_keys_of_recFind_none hnone ha

theorem recFind_eq_of_mem_nodup :
    ∀ {recs : List (String × RecEntry)}, (recs.map Prod.fst).Nodup →
      ∀ {c : String} {r : RecEntry}, (c, r) ∈ recs → recFind recs c = some r := by
  intro recs
  induction recs with
  | nil =>
    intro _ _ _ h
    cases h
  | cons q recs ih =>
    intro hnd c r h
    simp only [List.map_cons] at hnd
    rcases List.nodup_cons.mp hnd with ⟨hqnin, hndtl⟩
    rcases List.mem_cons.mp h with heq | hm
    · subst heq
      rw [recFind_cons, if_pos rfl]
    · rw [recFind_cons]
      have hq1 : ¬q.1 = c := by
        intro hq
        apply hqnin
        rw [hq]
        exact List.mem_map_of_mem Prod.fst hm
      rw [if_neg hq1]
      exact ih hndtl hm

theorem count_nodup_mem {l : List String} {a : String} (h : l.Nodup) :
    l.count a = if a ∈ l then 1 else 0 := by
  by_cases hm : a ∈ l
  · rw [if_pos hm]
    exact List.count_eq_one_of_mem h hm
  · rw [if_neg hm]
    exact List.count_eq_zero.mpr hm

theorem sum_map_ite_one (l : List String) (p : String → Bool) :
    (l.map (fun x => if p x = true then 1 else 0)).sum = l.countP p := by
  induction l with
  | nil => rfl
  | cons x xs ih =>
    rw [List.map_cons, List.sum_cons, List.countP_cons, ih]
    by_cases hx : p x = true
    · simp [hx]
      omega
    · simp [hx]

theorem mutualCount_spec (db : DB) (user : User) (c : String)
    (hfr : ∀ p ∈ db, p.2.friends.Nodup)
    (hcex : (findUser db c).isSome) :
    mutualCount db (existingIds db user.friends) c =
      user.friends.countP (fun fr => isFriendOf db fr c) := by
  unfold mutualCount
  have hpt : ∀ fid ∈ existingIds db user.friends,
      (match findUser db fid with
       | some fu => (existingIds db fu.friends).count c
       | none => 0) = if isFriendOf db fid c = true then 1 else 0 := by
    intro fid hfid
    have hex : (findUser db fid).isSome := (List.mem_filter.mp hfid).2
    obtain ⟨fu, hfu⟩ := Option.isSome_iff_exists.mp hex
    simp only [hfu]
    have hnd : fu.friends.Nodup := hfr (fid, fu) (mem_of_findUser hfu)
    have hnd2 : (existingIds db fu.friends).Nodup := hnd.filter _
    rw [count_nodup_mem hnd2]
    have hmemiff : c ∈ existingIds db fu.friends ↔ c ∈ fu.friends := by
      unfold existingIds
      rw [List.mem_filter]
      exact ⟨fun h => h.1, fun h => ⟨h, hcex⟩⟩
    unfold isFriendOf
    simp only [hfu]
    by_cases hcm : c ∈ fu.friends
    · rw [if_pos (hmemiff.mpr hcm)]
      simp [hcm]
    · rw [if_neg (fun h => hcm (hmemiff.mp h))]
      simp [hcm]
  rw [List.map_congr_left hpt, sum_map_ite_one]
  unfold existingIds
  rw [List.countP_filter]
  apply List.countP_congr
  intro x hx
  unfold isFriendOf
  cases hfx : findUser db x with
  | none => simp
  | some xu => simp

theorem countP_nodup_card (l : List String) (h : l.Nodup) (p : String → Bool) :
    l.countP p = (l.toFinset.filter (fun x => p x = true)).card := by
  rw [List.countP_eq_length_filter, ← List.toFinset_card_of_nodup (h.filter p),
    List.toFinset_filter]

theorem interest_filter_card (uInt cInt : List String) (h : uInt.Nodup) :
    (uInt.filter (fun i => decide (i ∈ cInt))).length =
      (uInt.toFinset ∩ cInt.toFinset).card := by
  rw [← List.toFinset_card_of_nodup (h.filter _), List.toFinset_filter]
  congr 1
  ext x
  simp [List.mem_toFinset]

theorem inter_card_zero_of_any_false (uInt cInt : List String)
    (h : cInt.any (fun i => decide (i ∈ uInt)) = false) :
    (uInt.toFinset ∩ cInt.toFinset).card = 0 := by
  rw [Finset.card_eq_zero]
  ext x
  simp only [Finset.mem_inter, List.mem_toFinset, Finset.not_mem_empty, iff_false, not_and]
  intro hxu hxc
  rw [List.any_eq_false] at h
  have := h x hxc
  simp at this
  exact this hxu

/-- C4.  In a store with unique ids, duplicate-free friend lists and a
duplicate-free interest list for the user, every candidate appears
exactly once in `recommend`'s output; its `commonInterests` is the size
of the intersection of the candidate's and the user's interest sets
(`0` when the candidate is reached only by the mutual-friend pass), and
its `mutualFriends` is the number of distinct friends of the user whose
friend list contains the candidate — the two signals accumulate
independently on the same entry. -/
theorem recommend_entry_counts (db : DB) (uid : String) (user : User)
    (out : List (String × RecEntry))
    (hkeys : (db.map Prod.fst).Nodup)
    (hfr : ∀ p ∈ db, p.2.friends.Nodup)
    (hui : user.interests.Nodup)
    (hu : findUser db uid = some user)
    (hout : recommend db uid = .ok out) :
    (out.map Prod.fst).Nodup ∧
    ∀ c r, (c, r) ∈ out → ∃ cu, findUser db c = some cu ∧
      r.commonInterests = (user.interests.toFinset ∩ cu.interests.toFinset).card ∧
      r.mutualFriends =
        (user.friends.toFinset.filter (fun fr => isFriendOf db fr c = true)).card := by
  obtain ⟨user2, hu2, hform⟩ := recommend_ok hout
  rw [hu] at hu2
  injection hu2 with hu2
  subst hu2
  have hufr : user.friends.Nodup := hfr (uid, user) (mem_of_findUser hu)
  have hnd1 : ((interestPass db uid user (existingIds db user.friends)).map Prod.fst).Nodup :=
    interestPass_keysNodup db uid user (existingIds db user.friends)
  have hnd2 : ((mutualPass db uid (existingIds db user.friends)
      (interestPass db uid user (existingIds db user.friends))).map Prod.fst).Nodup :=
    mutualPass_keysNodup db uid (existingIds db user.friends) _ hnd1
  have hperm := sortRecs_perm recLE
    (mutualPass db uid (existingIds db user.friends)
      (interestPass db uid user (existingIds db user.friends)))
  constructor
  · rw [hform]
    exact (hperm.map Prod.fst).nodup_iff.mpr hnd2
  · intro c r hcr
    rw [hform] at hcr
    have hmem : (c, r) ∈ mutualPass db uid (existingIds db user.friends)
        (interestPass db uid user (existingIds db user.friends)) :=
      hperm.mem_iff.mp hcr
    obtain ⟨hc1, hc2, hc3⟩ := mutualPass_goodKeys db uid _ _
      (interestPass_goodKeys db uid user _) _ hmem
    obtain ⟨cu, hcu⟩ := Option.isSome_iff_exists.mp hc3
    refine ⟨cu, hcu, ?_⟩
    have hfind : recFind (mutualPass db uid (existingIds db user.friends)
        (interestPass db uid user (existingIds db user.friends))) c = some r :=
      recFind_eq_of_mem_nodup hnd2 hmem
    have hmp : recFind (mutualPass db uid (existingIds db user.friends)
        (interestPass db uid user (existingIds db user.friends))) c =
        match recFind (interestPass db uid user (existingIds db user.friends)) c with
        | some r0 => some { r0 with
            mutualFriends := r0.mutualFriends + mutualCount db (existingIds db user.friends) c }
        | none =>
          if 0 < mutualCount db (existingIds db user.friends) c then
            match findUser db c with
            | some cu2 => some ⟨cu2.username, 0, mutualCount db (existingIds db user.friends) c⟩
            | none => none
          else none :=
      mutualPass_find db uid (existingIds db user.friends) c hc1 hc2
        (existingIds db user.friends) (interestPass db uid user (existingIds db user.friends))
    rw [hfind] at hmp
    have hip := interestPass_find db uid user (existingIds db user.friends) c cu
      hkeys hcu hc2 hc1
    have hmc_card : mutualCount db (existingIds db user.friends) c =
        (user.friends.toFinset.filter (fun fr => isFriendOf db fr c = true)).card := by
      rw [mutualCount_spec db user c hfr hc3, countP_nodup_card user.friends hufr]
    by_cases hany : cu.interests.any (fun i => decide (i ∈ user.interests)) = true
    · rw [if_pos hany] at hip
      rw [hip] at hmp
      have hmp2 : some r = some
          (⟨cu.username, (user.interests.filter (fun i => decide (i ∈ cu.interests))).length,
            0 + mutualCount db (existingIds db user.friends) c⟩ : RecEntry) := hmp
      injection hmp2 with hmp2
      subst hmp2
      constructor
      · exact interest_filter_card user.interests cu.interests hui
      · show 0 + mutualCount db (existingIds db user.friends) c = _
        rw [Nat.zero_add]
        exact hmc_card
    · rw [if_neg hany] at hip
      rw [hip, hcu] at hmp
      by_cases hpos : 0 < mutualCount db (existingIds db user.friends) c
      · rw [if_pos hpos] at hmp
        have hmp2 : some r = some
            (⟨cu.username, 0, mutualCount db (existingIds db user.friends) c⟩ : RecEntry) := hmp
        injection hmp2 with hmp2
        subst hmp2
        constructor
        · have h0 : (user.interests.toFinset ∩ cu.interests.toFinset).card = 0 := by
            apply inter_card_zero_of_any_false
            rw [Bool.eq_false_iff]
            exact hany
          rw [h0]
        · exact hmc_card
      · rw [if_neg hpos] at hmp
        have hmp2 : some r = none := hmp
        cases hmp2

/-- Witness for C4 on the concrete graph: `c2` shares two interests and
no mutual friend, `c3` one interest, `c1` no interest and one mutual
friend (`f`). -/
theorem recommend_entry_counts_witness :
    (exRecOut.map Prod.fst).Nodup ∧
    ∀ c r, (c, r) ∈ exRecOut → ∃ cu, findUser exRecDb c = some cu ∧
      r.commonInterests =
        ((⟨"ursula", ["f"], [], ["x", "y"], []⟩ : User).interests.toFinset ∩
          cu.interests.toFinset).card ∧
      r.mutualFriends =
        ((⟨"ursula", ["f"], [], ["x", "y"], []⟩ : User).friends.toFinset.filter
          (fun fr => isFriendOf exRecDb fr c = true)).card :=
  recommend_entry_counts exRecDb "u" ⟨"ursula", ["f"], [], ["x", "y"], []⟩ exRecOut
    (by decide) (by decide) (by decide) (by rfl) (by rfl)
